import Mathlib

set_option maxRecDepth 16000

/-!
Shallow embedding of the block / transaction validation core (`validate.go`,
package `btcchain`).  Machine integers (Go `int64`, `int`) are modelled as
`Int` with explicit two's-complement wraparound where the source can
overflow; byte strings are `List Nat`; hashes are opaque `Nat` values.
External collaborators (hashing, script engine, chain fetches) are fields of
a `Params` record, matching the interfaces the source consumes.
-/

namespace BtcChain

/-! ### Constants (`validate.go` lines 18-81) -/

def satoshiPerBitcoin : Int := 100000000

def maxSatoshi : Int := 21000000 * satoshiPerBitcoin

/-- `btcwire.MaxBlockPayload`, an external constant equal to 1024*1024. -/
def maxBlockPayload : Int := 1048576

def maxSigOpsPerBlock : Int := maxBlockPayload / 50

def minCoinbaseScriptLen : Nat := 2

def maxCoinbaseScriptLen : Nat := 100

def baseSubsidy : Int := 50 * satoshiPerBitcoin

def subsidyHalvingInterval : Int := 210000

/-- Package variable `coinbaseMaturity`, default 100. -/
def coinbaseMaturity : Int := 100

/-- `btcscript.Bip16Activation` as a Unix timestamp (Apr 1 2012 00:00 UTC). -/
def bip16Activation : Int := 1333238400

def maxUint32 : Nat := 4294967295

/-- `btcwire.GenesisHash`, an external constant; opaque hash value. -/
def genesisHash : Nat := 0x000000000019d6689c085ae165831e934ff763ae46a2a6c172b3f1b60a8ce26f

def block91842Hash : Nat := 0x00000000000a4d0a398161ffc163c503763b1f4360639393e0e4c8e300e0caec

def block91880Hash : Nat := 0x00000000000743f190a18c5577a3c2d2a1f610ae9601ac046a38084ccb7cd721

def zeroHash : Nat := 0

/-! ### Two's-complement 64-bit arithmetic -/

/-- Reduce an integer into the signed 64-bit range, as Go `int64` overflow does. -/
def wrap64 (x : Int) : Int := (x + 2 ^ 63) % 2 ^ 64 - 2 ^ 63

/-- Go `int64` addition (wraps on overflow). -/
def i64add (a b : Int) : Int := wrap64 (a + b)

/-- Go conversion `uint(x)` of a 64-bit value, used for shift amounts. -/
def uint64of (x : Int) : Nat := (x % 2 ^ 64).toNat

theorem wrap64_eq_of_bounds (x : Int) (h1 : -(2 ^ 63) ≤ x) (h2 : x < 2 ^ 63) :
    wrap64 x = x := by
  unfold wrap64
  omega

theorem i64add_eq_of_bounds (a b : Int) (h1 : -(2 ^ 63) ≤ a + b) (h2 : a + b < 2 ^ 63) :
    i64add a b = a + b := wrap64_eq_of_bounds _ h1 h2

/-! ### Data model (`btcwire` structures consumed by the validator) -/

structure OutPoint where
  hash : Nat
  index : Nat
  deriving DecidableEq, Repr

structure TxIn where
  previousOutpoint : OutPoint
  signatureScript : List Nat
  sequence : Nat
  deriving DecidableEq, Repr

structure TxOut where
  value : Int
  pkScript : List Nat
  deriving DecidableEq, Repr

structure MsgTx where
  version : Int
  txIn : List TxIn
  txOut : List TxOut
  lockTime : Nat
  deriving DecidableEq, Repr

structure BlockHeader where
  version : Int
  prevBlock : Nat
  merkleRoot : Nat
  timestamp : Int
  bits : Nat
  nonce : Nat
  deriving DecidableEq, Repr

structure MsgBlock where
  header : BlockHeader
  transactions : List MsgTx
  deriving DecidableEq, Repr

structure BlockNode where
  hash : Nat
  height : Int
  timestamp : Int
  deriving DecidableEq, Repr

/-! ### Errors.  The source returns `RuleError(msg)` or `fmt.Errorf(...)` with a
distinct message per site; we give each site its own constructor.  The `panic*`
constructors mark the sites where the Go code would panic (nil dereference or
index out of range) rather than return an error. -/

inductive VErr where
  | noTxInputs
  | noTxOutputs
  | outValueNegative
  | outValueTooLarge
  | totalOutNegative
  | totalOutTooLarge
  | duplicateTxInputs
  | badCoinbaseScriptLen
  | nullPrevOutpoint
  | missingSerializedHeight
  | badSerializedHeight
  | panicNoInput
  | powTargetLow
  | powTargetHigh
  | powHashAboveTarget
  | timeTooNew
  | noTransactions
  | firstTxNotCoinbase
  | multipleCoinbases
  | badMerkleRoot
  | duplicateTx
  | tooManySigOpsSanity
  | txShaMissing
  | bip30Unspent
  | missingInputTx
  | immatureCoinbase
  | inputIndexOutOfBounds
  | doubleSpend
  | inputValueNegative
  | inputValueTooLarge
  | totalInTooLarge
  | spendTooHigh
  | panicNilOriginTx
  | panicTxOutIndex
  | p2shMissingInput
  | p2shOutOfBounds
  | p2shOverflow
  | tooManySigOpsConnect
  | totalFeesOverflow
  | coinbaseTooHigh
  | panicNoCoinbase
  | fetchFail
  | shaFail
  deriving DecidableEq, Repr

instance {α β : Type} [DecidableEq α] [DecidableEq β] : DecidableEq (Except α β) := by
  intro x y
  cases x <;> cases y
  case error.error a b =>
    exact if h : a = b then .isTrue (by rw [h]) else .isFalse (by intro hc; cases hc; exact h rfl)
  case error.ok a b => exact .isFalse (by intro hc; cases hc)
  case ok.error a b => exact .isFalse (by intro hc; cases hc)
  case ok.ok a b =>
    exact if h : a = b then .isTrue (by rw [h]) else .isFalse (by intro hc; cases hc; exact h rfl)

/-- `txData` entries of the transaction store.  `tx` is a nillable pointer in
the source, `err` carries `btcdb.TxShaMissing` or another fetch error. -/
structure TxData where
  tx : Option MsgTx
  hash : Nat
  blockHeight : Int
  spent : List Bool
  err : Option VErr
  deriving DecidableEq, Repr

/-- The input-transaction store `map[btcwire.ShaHash]*txData`, as an
association list with unique keys. -/
def Store := List (Nat × TxData)
  deriving DecidableEq

def storeLookup (s : Store) (h : Nat) : Option TxData :=
  (List.find? (fun p => p.1 == h) s).map (fun p => p.2)

/-- In-place `originTx.spent[originTxIndex] = true` on the entry keyed `h`. -/
def storeSetSpent : Store → Nat → Nat → Store
  | [], _, _ => []
  | (k, td) :: rest, h, i =>
    if k == h then (k, { td with spent := td.spent.set i true }) :: rest
    else (k, td) :: storeSetSpent rest h i

/-! ### Monetary and structural predicates -/

def isNullOutpoint (o : OutPoint) : Bool :=
  o.index == maxUint32 && o.hash == zeroHash

def isCoinBase (tx : MsgTx) : Bool :=
  match tx.txIn with
  | [txin] => txin.previousOutpoint.index == maxUint32 &&
      txin.previousOutpoint.hash == zeroHash
  | _ => false

def isBIP0030Node (node : BlockNode) : Bool :=
  (node.height == 91842 && node.hash == block91842Hash) ||
  (node.height == 91880 && node.hash == block91880Hash)

/-- `calcBlockSubsidy`: `baseSubsidy >> uint(height/subsidyHalvingInterval)`.
Go `/` truncates toward zero (`Int.tdiv`); the shift of a non-negative value
by `n` equals floor division by `2^n`, and Go defines shifts by amounts ≥ 64
to yield 0, which floor division also gives here. -/
def calcBlockSubsidy (height : Int) : Int :=
  baseSubsidy / 2 ^ uint64of (Int.tdiv height subsidyHalvingInterval)

/-! ### Transaction sanity (`checkTransactionSanity`) -/

/-- The output-value loop: per-output range checks and the signed running
total with its `< 0` and `> maxSatoshi` checks. -/
def checkTxSanityOutputs : List TxOut → Int → Except VErr Unit
  | [], _ => .ok ()
  | o :: rest, total =>
    if o.value < 0 then .error .outValueNegative
    else if o.value > maxSatoshi then .error .outValueTooLarge
    else
      let total' := i64add total o.value
      if total' < 0 then .error .totalOutNegative
      else if total' > maxSatoshi then .error .totalOutTooLarge
      else checkTxSanityOutputs rest total'

/-- Duplicate-outpoint detection over the inputs (the source keys a map by
the `(hash, index)` pair). -/
def dupInputCheck : List TxIn → List OutPoint → Except VErr Unit
  | [], _ => .ok ()
  | txin :: rest, seen =>
    if seen.contains txin.previousOutpoint then .error .duplicateTxInputs
    else dupInputCheck rest (txin.previousOutpoint :: seen)

def nullInputCheck : List TxIn → Except VErr Unit
  | [] => .ok ()
  | txin :: rest =>
    if isNullOutpoint txin.previousOutpoint then .error .nullPrevOutpoint
    else nullInputCheck rest

def checkTransactionSanity (tx : MsgTx) : Except VErr Unit :=
  if tx.txIn.length = 0 then .error .noTxInputs
  else if tx.txOut.length = 0 then .error .noTxOutputs
  else
    match checkTxSanityOutputs tx.txOut 0 with
    | .error e => .error e
    | .ok () =>
      match dupInputCheck tx.txIn [] with
      | .error e => .error e
      | .ok () =>
        if isCoinBase tx then
          match tx.txIn with
          | [] => .error .panicNoInput
          | txin :: _ =>
            let slen := txin.signatureScript.length
            if slen < minCoinbaseScriptLen then .error .badCoinbaseScriptLen
            else if slen > maxCoinbaseScriptLen then .error .badCoinbaseScriptLen
            else .ok ()
        else nullInputCheck tx.txIn

/-! ### Serialized height (`checkSerializedHeight`) -/

/-- `copy(serializedHeightBytes, sigScript[1:4])` followed by a little-endian
u32 decode: bytes 1..3 of the script, zero-extended. -/
def checkSerializedHeight (coinbaseTx : MsgTx) (wantHeight : Int) : Except VErr Unit :=
  match coinbaseTx.txIn with
  | [] => .error .panicNoInput
  | txin :: _ =>
    if txin.signatureScript.length < 4 then .error .missingSerializedHeight
    else if ((txin.signatureScript.getD 1 0 + txin.signatureScript.getD 2 0 * 256 +
        txin.signatureScript.getD 3 0 * 65536 : Nat) : Int) ≠ wantHeight then
      .error .badSerializedHeight
    else .ok ()

/-! ### External collaborators.  The chain / wire / script interfaces the
validator consumes (hashing, fetches, script engine, checkpoint and
difficulty data, current time), bundled as in the source's `BlockChain`
receiver plus package-level externals. -/

structure Params where
  txSha : MsgTx → Except VErr Nat
  txShas : List MsgTx → Except VErr (List Nat)
  blockSha : MsgBlock → Except VErr Nat
  getSigOpCount : List Nat → Int
  getPreciseSigOpCount : List Nat → List Nat → Bool → Int
  isPayToScriptHash : List Nat → Bool
  blockScriptsCheck : MsgBlock → Store → Except VErr Unit
  fetchInputTransactions : BlockNode → MsgBlock → Except VErr Store
  fetchTxList : BlockNode → List Nat → Except VErr (List TxData)
  latestCheckpoint : Option Int
  noVerify : Bool
  powLimit : Int
  compactToBig : Nat → Int
  shaHashToBig : Nat → Int
  buildMerkleRoot : MsgBlock → Nat
  timeNow : Int

/-! ### Sig-op accounting (`countSigOps`, `countP2SHSigOps`) -/

/-- Imprecise per-transaction count: sum the engine's count over every input
signature script and every output pubkey script (Go `int` additions). -/
def countSigOps (p : Params) (tx : MsgTx) : Int :=
  let inOps := tx.txIn.foldl (fun acc txin => i64add acc (p.getSigOpCount txin.signatureScript)) 0
  tx.txOut.foldl (fun acc txout => i64add acc (p.getSigOpCount txout.pkScript)) inOps

/-- The input loop of `countP2SHSigOps`. -/
def p2shSigOpsLoop (p : Params) (s : Store) : List TxIn → Int → Except VErr Int
  | [], total => .ok total
  | txin :: rest, total =>
    match storeLookup s txin.previousOutpoint.hash with
    | none => .error .p2shMissingInput
    | some originTx =>
      if originTx.err ≠ none then .error .p2shMissingInput
      else
        match originTx.tx with
        | none => .error .p2shMissingInput
        | some origin =>
          let originTxIndex := txin.previousOutpoint.index
          match origin.txOut.get? originTxIndex with
          | none => .error .p2shOutOfBounds
          | some txout =>
            if ¬ p.isPayToScriptHash txout.pkScript then p2shSigOpsLoop p s rest total
            else
              let numSigOps := p.getPreciseSigOpCount txin.signatureScript txout.pkScript true
              let total' := i64add total numSigOps
              if total' < total then .error .p2shOverflow
              else p2shSigOpsLoop p s rest total'

def countP2SHSigOps (p : Params) (tx : MsgTx) (isCoinBaseTx : Bool) (s : Store) :
    Except VErr Int :=
  if isCoinBaseTx then .ok 0
  else
    match p.txSha tx with
    | .error e => .error e
    | .ok _ => p2shSigOpsLoop p s tx.txIn 0

/-! ### Transaction-input check (`checkTransactionInputs`) -/

/-- Body of the input loop: availability, coinbase maturity, spent-index
bounds, double-spend, value range, overflow-checked accumulation, and the
in-place marking of the referenced output as spent. -/
def txInStep (txHeight : Int) (txin : TxIn) (total : Int) (s : Store) :
    Except VErr (Int × Store) :=
  match storeLookup s txin.previousOutpoint.hash with
  | none => .error .missingInputTx
  | some originTx =>
    match originTx.tx with
    | none => .error .panicNilOriginTx
    | some origin =>
      if isCoinBase origin ∧ txHeight - originTx.blockHeight < coinbaseMaturity then
        .error .immatureCoinbase
      else if originTx.spent.length ≤ txin.previousOutpoint.index then
        .error .inputIndexOutOfBounds
      else if originTx.spent.getD txin.previousOutpoint.index false then
        .error .doubleSpend
      else
        match origin.txOut.get? txin.previousOutpoint.index with
        | none => .error .panicTxOutIndex
        | some txout =>
          if txout.value < 0 then .error .inputValueNegative
          else if txout.value > maxSatoshi then .error .inputValueTooLarge
          else if i64add total txout.value < total ∨ i64add total txout.value > maxSatoshi then
            .error .totalInTooLarge
          else
            .ok (i64add total txout.value,
              storeSetSpent s txin.previousOutpoint.hash txin.previousOutpoint.index)

def processInputs (txHeight : Int) :
    List TxIn → Int → Store → Store × Except VErr Int
  | [], total, s => (s, .ok total)
  | txin :: rest, total, s =>
    match txInStep txHeight txin total s with
    | .error e => (s, .error e)
    | .ok (total', s') => processInputs txHeight rest total' s'

/-- Sum of output values under Go `int64` addition. -/
def sumOutputValues (outs : List TxOut) : Int :=
  outs.foldl (fun acc txout => i64add acc txout.value) 0

def checkTransactionInputs (p : Params) (tx : MsgTx) (txHeight : Int) (s : Store) :
    Store × Except VErr Int :=
  if isCoinBase tx then (s, .ok 0)
  else
    match p.txSha tx with
    | .error e => (s, .error e)
    | .ok _ =>
      match processInputs txHeight tx.txIn 0 s with
      | (s', .error e) => (s', .error e)
      | (s', .ok totalSatoshiIn) =>
        let totalSatoshiOut := sumOutputValues tx.txOut
        if totalSatoshiIn < totalSatoshiOut then (s', .error .spendTooHigh)
        else (s', .ok (wrap64 (totalSatoshiIn - totalSatoshiOut)))

/-! ### BIP30 duplicate check (`isTransactionSpent`, `checkBIP0030`) -/

def isTransactionSpent (td : TxData) : Bool :=
  td.spent.all (fun b => b)

def bip30Scan : List TxData → Except VErr Unit
  | [] => .ok ()
  | txD :: rest =>
    match txD.err with
    | some .txShaMissing => bip30Scan rest
    | none => if ¬ isTransactionSpent txD then .error .bip30Unspent else bip30Scan rest
    | some e => .error e

/-- `checkBIP0030`: note the source returns success (nil) when listing the
block's transaction hashes fails. -/
def checkBIP0030 (p : Params) (node : BlockNode) (block : MsgBlock) : Except VErr Unit :=
  match p.txShas block.transactions with
  | .error _ => .ok ()
  | .ok fetchList =>
    match p.fetchTxList node fetchList with
    | .error e => .error e
    | .ok txResults => bip30Scan txResults

/-! ### Block sanity (`checkProofOfWork`, `checkBlockSanity`) -/

def checkProofOfWork (p : Params) (block : MsgBlock) : Except VErr Unit :=
  let target := p.compactToBig block.header.bits
  if target ≤ 0 then .error .powTargetLow
  else if target > p.powLimit then .error .powTargetHigh
  else
    match p.blockSha block with
    | .error e => .error e
    | .ok blockHash =>
      if p.shaHashToBig blockHash > target then .error .powHashAboveTarget
      else .ok ()

def sanityAllTxs : List MsgTx → Except VErr Unit
  | [] => .ok ()
  | tx :: rest =>
    match checkTransactionSanity tx with
    | .error e => .error e
    | .ok () => sanityAllTxs rest

def hasDuplicate : List Nat → List Nat → Bool
  | [], _ => false
  | h :: rest, seen => if seen.contains h then true else hasDuplicate rest (h :: seen)

def sanitySigOpsLoop (p : Params) : List MsgTx → Int → Except VErr Unit
  | [], _ => .ok ()
  | tx :: rest, total =>
    let total' := i64add total (countSigOps p tx)
    if total' < total ∨ total' > maxSigOpsPerBlock then .error .tooManySigOpsSanity
    else sanitySigOpsLoop p rest total'

def checkBlockSanity (p : Params) (block : MsgBlock) : Except VErr Unit :=
  match checkProofOfWork p block with
  | .error e => .error e
  | .ok () =>
    if block.header.timestamp > p.timeNow + 7200 then .error .timeTooNew
    else
      match block.transactions with
      | [] => .error .noTransactions
      | tx0 :: rest =>
        if ¬ isCoinBase tx0 then .error .firstTxNotCoinbase
        else if rest.any isCoinBase then .error .multipleCoinbases
        else
          match sanityAllTxs (tx0 :: rest) with
          | .error e => .error e
          | .ok () =>
            if p.buildMerkleRoot block ≠ block.header.merkleRoot then .error .badMerkleRoot
            else
              match p.txShas block.transactions with
              | .error e => .error e
              | .ok txShaList =>
                if hasDuplicate txShaList [] then .error .duplicateTx
                else sanitySigOpsLoop p block.transactions 0

/-! ### Connect-block orchestration (`checkConnectBlock`) -/

/-- The sig-op pass over the block's transactions, with the BIP16 flag; `i`
tracks the index so the first transaction is treated as the coinbase. -/
def sigOpPass (p : Params) (enforce : Bool) (s : Store) :
    List MsgTx → Nat → Int → Except VErr Int
  | [], _, total => .ok total
  | tx :: rest, i, total =>
    let numSigOps := countSigOps p tx
    match (if enforce then countP2SHSigOps p tx (i == 0) s else .ok 0) with
    | .error e => .error e
    | .ok numP2SHSigOps =>
      let num := i64add numSigOps numP2SHSigOps
      let total' := i64add total num
      if total' < total ∨ total' > maxSigOpsPerBlock then .error .tooManySigOpsConnect
      else sigOpPass p enforce s rest (i + 1) total'

/-- The fee pass: `checkTransactionInputs` over each transaction, fees
accumulated with the wraparound check, the store threaded through. -/
def feePass (p : Params) (height : Int) :
    List MsgTx → Int → Store → Store × Except VErr Int
  | [], total, s => (s, .ok total)
  | tx :: rest, total, s =>
    match checkTransactionInputs p tx height s with
    | (s', .error e) => (s', .error e)
    | (s', .ok txFee) =>
      let total' := i64add total txFee
      if total' < total then (s', .error .totalFeesOverflow)
      else feePass p height rest total' s'

/-- `checkConnectBlock`.  The second component is the final state of the
fetched input store (`none` when validation aborts before the fetch, or on
the genesis short-circuit), making the in-place `spent` mutations visible. -/
def checkConnectBlock (p : Params) (node : BlockNode) (block : MsgBlock) :
    Except VErr Unit × Option Store :=
  if node.hash == genesisHash then (.ok (), none)
  else
    match (if isBIP0030Node node then Except.ok () else checkBIP0030 p node block) with
    | .error e => (.error e, none)
    | .ok () =>
      match p.fetchInputTransactions node block with
      | .error e => (.error e, none)
      | .ok txInputStore =>
        match sigOpPass p (bip16Activation < node.timestamp) txInputStore
            block.transactions 0 0 with
        | .error e => (.error e, some txInputStore)
        | .ok _ =>
          match feePass p node.height block.transactions 0 txInputStore with
          | (s', .error e) => (.error e, some s')
          | (s', .ok totalFees) =>
            match block.transactions with
            | [] => (.error .panicNoCoinbase, some s')
            | tx0 :: _ =>
              if sumOutputValues tx0.txOut >
                  i64add (calcBlockSubsidy node.height) totalFees then
                (.error .coinbaseTooHigh, some s')
              else if (match p.latestCheckpoint with
                       | some cpHeight =>
                           if node.height ≤ cpHeight then false else !p.noVerify
                       | none => !p.noVerify : Bool) then
                match p.blockScriptsCheck block s' with
                | .error e => (.error e, some s')
                | .ok () => (.ok (), some s')
              else (.ok (), some s')

/-! ### Concrete collaborator instances used to exercise the checks -/

/-- A baseline collaborator instance: hashing always succeeds with 0, the
script engine reports no sig-ops, fetches fail, scripts verify. -/
def trivialParams : Params where
  txSha := fun _ => .ok 0
  txShas := fun _ => .ok []
  blockSha := fun _ => .ok 0
  getSigOpCount := fun _ => 0
  getPreciseSigOpCount := fun _ _ _ => 0
  isPayToScriptHash := fun _ => false
  blockScriptsCheck := fun _ _ => .ok ()
  fetchInputTransactions := fun _ _ => .error .fetchFail
  fetchTxList := fun _ _ => .error .fetchFail
  latestCheckpoint := none
  noVerify := true
  powLimit := 0
  compactToBig := fun _ => 0
  shaHashToBig := fun _ => 0
  buildMerkleRoot := fun _ => 0
  timeNow := 0

/-! ## Claims -/

/-- C5: for every height in the `int64` range with `0 ≤ height`,
`calcBlockSubsidy height` is `50 × 10^8` right-shifted by `height / 210000`
(floor division by `2 ^ (height / 210000)`), total for arbitrarily large
heights; it gives `50×10^8` at heights 0 and 209999, `25×10^8` at 210000,
`0` at 6930000, and saturates to 0 once the shift amount reaches 33. -/
theorem spec_c5_calc_block_subsidy :
    (∀ height : Int, 0 ≤ height → height < 2 ^ 63 →
      calcBlockSubsidy height = baseSubsidy / 2 ^ (height.toNat / 210000)) ∧
    calcBlockSubsidy 0 = 5000000000 ∧
    calcBlockSubsidy 209999 = 5000000000 ∧
    calcBlockSubsidy 210000 = 2500000000 ∧
    calcBlockSubsidy 6930000 = 0 ∧
    (∀ height : Int, 33 * 210000 ≤ height → height < 2 ^ 63 →
      calcBlockSubsidy height = 0) := by
  have key : ∀ height : Int, 0 ≤ height → height < 2 ^ 63 →
      calcBlockSubsidy height = baseSubsidy / 2 ^ (height.toNat / 210000) := by
    intro height h0 h63
    unfold calcBlockSubsidy uint64of subsidyHalvingInterval
    congr 1
    have htd : Int.tdiv height 210000 = ((height.toNat / 210000 : Nat) : Int) := by
      rw [← Int.toNat_of_nonneg h0]
      exact_mod_cast (Int.ofNat_tdiv height.toNat 210000).symm
    rw [htd]
    have hlt : ((height.toNat / 210000 : Nat) : Int) < 2 ^ 64 := by
      have : ((height.toNat / 210000 : Nat) : Int) ≤ height := by
        calc ((height.toNat / 210000 : Nat) : Int) ≤ (height.toNat : Int) := by
              exact_mod_cast Nat.div_le_self _ _
          _ = height := Int.toNat_of_nonneg h0
      omega
    rw [Int.emod_eq_of_lt (by positivity) hlt]
    rw [Int.toNat_natCast]
  refine ⟨key, by decide, by decide, by decide, by decide, ?_⟩
  intro height hge h63
  rw [key height (by omega) h63]
  have h33 : 33 ≤ height.toNat / 210000 := by
    have : (6930000 : Int) ≤ height := by omega
    have hN : 6930000 ≤ height.toNat := by omega
    omega
  have hbig : (5000000000 : Int) < 2 ^ (height.toNat / 210000) := by
    calc (5000000000 : Int) < 2 ^ 33 := by norm_num
      _ ≤ 2 ^ (height.toNat / 210000) := by
          exact pow_le_pow_right₀ (by norm_num) h33
  have hbase : baseSubsidy = 5000000000 := by decide
  rw [hbase]
  exact Int.ediv_eq_zero_of_lt (by norm_num) hbig

/-- Witness for C5 at height 100: subsidy is the full base subsidy. -/
theorem spec_c5_calc_block_subsidy_witness :
    calcBlockSubsidy 100 = baseSubsidy / 2 ^ ((100 : Int).toNat / 210000) :=
  spec_c5_calc_block_subsidy.1 100 (by decide) (by decide)

/-- C8: whenever the node's hash is the genesis hash, `checkConnectBlock`
returns success immediately with no store fetched, for every block (however
malformed) and every collaborator instance — in particular no BIP30 check,
no input fetch and no other contextual check can influence the result. -/
theorem spec_c8_genesis_short_circuit (p : Params) (node : BlockNode) (block : MsgBlock)
    (h : node.hash = genesisHash) :
    checkConnectBlock p node block = (.ok (), none) := by
  unfold checkConnectBlock
  simp [h]

/-- Witness for C8: a node carrying the genesis hash with a block that has no
transactions at all, under collaborators whose fetches always fail. -/
theorem spec_c8_genesis_short_circuit_witness :
    checkConnectBlock trivialParams ⟨genesisHash, 7, 99⟩ ⟨⟨1, 0, 0, 0, 0, 0⟩, []⟩ =
      (.ok (), none) :=
  spec_c8_genesis_short_circuit trivialParams ⟨genesisHash, 7, 99⟩ ⟨⟨1, 0, 0, 0, 0, 0⟩, []⟩ rfl

/-- C10: if listing the block's transaction hashes fails, `checkBIP0030`
returns success without consulting the chain fetch at all (the verdict is
independent of the `fetchTxList` collaborator), so a hash-listing failure
can never cause a BIP30 rejection. -/
theorem spec_c10_bip30_sha_failure (p : Params) (node : BlockNode) (block : MsgBlock)
    (e : VErr) (h : p.txShas block.transactions = .error e)
    (f : BlockNode → List Nat → Except VErr (List TxData)) :
    checkBIP0030 { p with fetchTxList := f } node block = .ok () := by
  unfold checkBIP0030
  simp only []
  rw [show ({ p with fetchTxList := f } : Params).txShas = p.txShas from rfl, h]

/-- Witness for C10: collaborators whose hash listing fails and whose chain
fetch would report an unspent duplicate; the check still succeeds. -/
theorem spec_c10_bip30_sha_failure_witness :
    checkBIP0030
      { trivialParams with
          txShas := fun _ => .error .shaFail,
          fetchTxList := fun _ _ => .ok [⟨none, 3, 1, [false], none⟩] }
      ⟨5, 1, 0⟩ ⟨⟨1, 0, 0, 0, 0, 0⟩, []⟩ = .ok () :=
  spec_c10_bip30_sha_failure
    { trivialParams with txShas := fun _ => .error .shaFail } ⟨5, 1, 0⟩
    ⟨⟨1, 0, 0, 0, 0, 0⟩, []⟩ .shaFail rfl (fun _ _ => .ok [⟨none, 3, 1, [false], none⟩])

/-! ### Gadgets for the coinbase-maturity boundary (C6) -/

/-- A prior coinbase transaction with a single 50 BTC output. -/
def c6CoinbaseTx : MsgTx :=
  ⟨1, [⟨⟨zeroHash, maxUint32⟩, [0, 0], maxUint32⟩], [⟨5000000000, []⟩], 0⟩

/-- Store holding the coinbase mined at height 100, unspent. -/
def c6Store : Store := [(11, ⟨some c6CoinbaseTx, 11, 100, [false], none⟩)]

/-- A transaction spending that coinbase output. -/
def c6SpendTx : MsgTx := ⟨1, [⟨⟨11, 0⟩, [], 0⟩], [⟨5000000000, []⟩], 0⟩

def c6StoreAfter : Store := [(11, ⟨some c6CoinbaseTx, 11, 100, [true], none⟩)]

/-- C6: when the resolved prior transaction is a coinbase, the input step of
`checkTransactionInputs` rejects for immaturity exactly when
`txHeight - priorHeight < coinbaseMaturity` (default 100); the concrete
spend of a height-100 coinbase passes in full at height 200 (difference
100) and is rejected as immature at height 199 (difference 99). -/
theorem spec_c6_coinbase_maturity :
    (∀ (txHeight : Int) (txin : TxIn) (total : Int) (s : Store)
        (otd : TxData) (origin : MsgTx),
      storeLookup s txin.previousOutpoint.hash = some otd →
      otd.tx = some origin → isCoinBase origin = true →
      (txInStep txHeight txin total s = .error .immatureCoinbase ↔
        txHeight - otd.blockHeight < coinbaseMaturity)) ∧
    checkTransactionInputs trivialParams c6SpendTx 200 c6Store =
      (c6StoreAfter, .ok 0) ∧
    checkTransactionInputs trivialParams c6SpendTx 199 c6Store =
      (c6Store, .error .immatureCoinbase) := by
  refine ⟨?_, rfl, rfl⟩
  intro txHeight txin total s otd origin hlk htx hcb
  unfold txInStep
  simp only [hlk, htx]
  by_cases hd : txHeight - otd.blockHeight < coinbaseMaturity
  · simp [hcb, hd]
  · rw [if_neg (by simp [hd])]
    simp only [hd, iff_false]
    intro hcon
    split at hcon
    · exact absurd hcon (by simp)
    · split at hcon
      · exact absurd hcon (by simp)
      · split at hcon
        · exact absurd hcon (by simp)
        · split at hcon
          · exact absurd hcon (by simp)
          · split at hcon
            · exact absurd hcon (by simp)
            · split at hcon
              · exact absurd hcon (by simp)
              · exact absurd hcon (by simp)

/-- Witness for C6: the immaturity rule fires on the concrete store when one
block short of maturity. -/
theorem spec_c6_coinbase_maturity_witness :
    txInStep 199 ⟨⟨11, 0⟩, [], 0⟩ 0 c6Store = .error .immatureCoinbase :=
  (spec_c6_coinbase_maturity.1 199 ⟨⟨11, 0⟩, [], 0⟩ 0 c6Store
    ⟨some c6CoinbaseTx, 11, 100, [false], none⟩ c6CoinbaseTx rfl rfl rfl).mpr (by decide)

/-! ### Gadgets and congruence lemmas for the BIP16 activation gate (C7) -/

/-- With the BIP16 flag off, the sig-op pass never consults the precise
pay-to-script-hash counter. -/
theorem sigOpPass_precise_indep (p : Params)
    (f g : List Nat → List Nat → Bool → Int) (s : Store) :
    ∀ (txs : List MsgTx) (i : Nat) (total : Int),
      sigOpPass { p with getPreciseSigOpCount := f } false s txs i total =
      sigOpPass { p with getPreciseSigOpCount := g } false s txs i total := by
  intro txs
  induction txs with
  | nil => intro i total; rfl
  | cons tx rest ih =>
    intro i total
    unfold sigOpPass
    have hc : countSigOps { p with getPreciseSigOpCount := f } tx =
        countSigOps { p with getPreciseSigOpCount := g } tx := rfl
    simp only [Bool.false_eq_true, if_false, hc]
    split
    · rfl
    · exact ih _ _

/-- `checkTransactionInputs` only consults `txSha`, so it is unaffected by
the precise sig-op counter. -/
theorem feePass_precise_indep (p : Params)
    (f g : List Nat → List Nat → Bool → Int) (height : Int) :
    ∀ (txs : List MsgTx) (total : Int) (s : Store),
      feePass { p with getPreciseSigOpCount := f } height txs total s =
      feePass { p with getPreciseSigOpCount := g } height txs total s := by
  intro txs
  induction txs with
  | nil => intro total s; rfl
  | cons tx rest ih =>
    intro total s
    unfold feePass
    have hc : checkTransactionInputs { p with getPreciseSigOpCount := f } tx height s =
        checkTransactionInputs { p with getPreciseSigOpCount := g } tx height s := rfl
    rcases hci : checkTransactionInputs { p with getPreciseSigOpCount := g } tx height s with
      ⟨s', r⟩
    rw [hc, hci]
    cases r with
    | error e => rfl
    | ok v =>
      simp only []
      split
      · rfl
      · exact ih _ _

/-- A prior non-coinbase transaction whose output the gadget engine flags as
pay-to-script-hash. -/
def c7PriorTx : MsgTx := ⟨1, [⟨⟨9, 9⟩, [], 0⟩], [⟨0, [7]⟩], 0⟩

def c7Store : Store := [(21, ⟨some c7PriorTx, 21, 1, [false], none⟩)]

def c7Coinbase : MsgTx :=
  ⟨1, [⟨⟨zeroHash, maxUint32⟩, [0, 0, 0, 0], maxUint32⟩], [⟨0, []⟩], 0⟩

def c7SpendTx : MsgTx := ⟨1, [⟨⟨21, 0⟩, [], 0⟩], [⟨0, []⟩], 0⟩

def c7Block : MsgBlock := ⟨⟨2, 0, 0, 0, 0, 0⟩, [c7Coinbase, c7SpendTx]⟩

/-- Collaborators whose precise counter reports 21000 sig-ops (over the
20971 block cap) for the single pay-to-script-hash input. -/
def c7Params : Params :=
  { trivialParams with
      getPreciseSigOpCount := fun _ _ _ => 21000,
      isPayToScriptHash := fun _ => true,
      fetchTxList := fun _ _ => .ok [],
      fetchInputTransactions := fun _ _ => .ok c7Store }

set_option maxRecDepth 8000 in
/-- C7: the precise pay-to-script-hash count enters the block sig-op total
iff the node's timestamp is strictly after `bip16Activation`: at a timestamp
equal to the activation instant the whole connect check is independent of
the precise counter, and the concrete P2SH-heavy block is accepted at the
activation instant but rejected for excess sig-ops one second later. -/
theorem spec_c7_bip16_gate :
    (∀ (p : Params) (f g : List Nat → List Nat → Bool → Int)
        (node : BlockNode) (block : MsgBlock),
      node.timestamp ≤ bip16Activation →
      checkConnectBlock { p with getPreciseSigOpCount := f } node block =
      checkConnectBlock { p with getPreciseSigOpCount := g } node block) ∧
    (checkConnectBlock c7Params ⟨1000, 300000, bip16Activation⟩ c7Block).1 = .ok () ∧
    (checkConnectBlock c7Params ⟨1000, 300000, bip16Activation + 1⟩ c7Block).1 =
      .error .tooManySigOpsConnect := by
  refine ⟨?_, by decide, by decide⟩
  intro p f g node block ht
  unfold checkConnectBlock
  have hflag : decide (bip16Activation < node.timestamp) = false := by
    simp
    omega
  have hb : checkBIP0030 { p with getPreciseSigOpCount := f } node block =
      checkBIP0030 { p with getPreciseSigOpCount := g } node block := rfl
  simp only [hflag, hb]
  split
  · rfl
  · split
    · rfl
    · split
      · rfl
      · rw [sigOpPass_precise_indep p f g]
        split
        · rfl
        · rw [feePass_precise_indep p f g]

/-- Witness for C7: at the activation instant itself, swapping the precise
counter between two engines does not change the verdict. -/
theorem spec_c7_bip16_gate_witness :
    checkConnectBlock { trivialParams with getPreciseSigOpCount := fun _ _ _ => 1 }
      ⟨4, 2, bip16Activation⟩ ⟨⟨1, 0, 0, 0, 0, 0⟩, []⟩ =
    checkConnectBlock { trivialParams with getPreciseSigOpCount := fun _ _ _ => 2 }
      ⟨4, 2, bip16Activation⟩ ⟨⟨1, 0, 0, 0, 0, 0⟩, []⟩ :=
  spec_c7_bip16_gate.1 trivialParams (fun _ _ _ => 1) (fun _ _ _ => 2)
    ⟨4, 2, bip16Activation⟩ ⟨⟨1, 0, 0, 0, 0, 0⟩, []⟩ (by decide)

/-! ### Store evolution: validation may only flip `spent` bits to true -/

/-- Pointwise monotonicity of `spent` bitmaps: same length, bits only set. -/
def SpentLE (a b : List Bool) : Prop :=
  List.Forall₂ (fun x y => x = true → y = true) a b

/-- The successor `TxData` agrees on every field except that `spent` bits may
have been set. -/
def TxDataLE (t u : TxData) : Prop :=
  u.tx = t.tx ∧ u.hash = t.hash ∧ u.blockHeight = t.blockHeight ∧ u.err = t.err ∧
  SpentLE t.spent u.spent

/-- Stores in the same shape, entry by entry, related by `TxDataLE`. -/
def StoreLE (s u : Store) : Prop :=
  List.Forall₂ (fun a b => b.1 = a.1 ∧ TxDataLE a.2 b.2) s u

theorem spentLE_refl : ∀ l : List Bool, SpentLE l l
  | [] => .nil
  | _ :: rest => .cons (fun h => h) (spentLE_refl rest)

theorem spentLE_trans {a b c : List Bool} (h1 : SpentLE a b) (h2 : SpentLE b c) :
    SpentLE a c := by
  induction h1 generalizing c with
  | nil => exact h2
  | cons hab _ ih =>
    cases h2 with
    | cons hbc h2' => exact .cons (fun hx => hbc (hab hx)) (ih h2')

theorem spentLE_set_true : ∀ (l : List Bool) (i : Nat), SpentLE l (l.set i true)
  | [], _ => .nil
  | _ :: rest, 0 => .cons (fun _ => rfl) (spentLE_refl rest)
  | _ :: rest, i + 1 => .cons (fun h => h) (spentLE_set_true rest i)

theorem txDataLE_refl (t : TxData) : TxDataLE t t :=
  ⟨rfl, rfl, rfl, rfl, spentLE_refl t.spent⟩

theorem txDataLE_trans {t u v : TxData} (h1 : TxDataLE t u) (h2 : TxDataLE u v) :
    TxDataLE t v :=
  ⟨h2.1.trans h1.1, h2.2.1.trans h1.2.1, h2.2.2.1.trans h1.2.2.1,
    h2.2.2.2.1.trans h1.2.2.2.1, spentLE_trans h1.2.2.2.2 h2.2.2.2.2⟩

theorem storeLE_refl : ∀ s : Store, StoreLE s s
  | [] => .nil
  | _ :: rest => .cons ⟨rfl, txDataLE_refl _⟩ (storeLE_refl rest)

theorem storeLE_trans {s u v : Store} (h1 : StoreLE s u) (h2 : StoreLE u v) :
    StoreLE s v := by
  induction h1 generalizing v with
  | nil => exact h2
  | cons hab _ ih =>
    cases h2 with
    | cons hbc h2' =>
      exact .cons ⟨hbc.1.trans hab.1, txDataLE_trans hab.2 hbc.2⟩ (ih h2')

theorem storeSetSpent_le : ∀ (s : Store) (h i : Nat), StoreLE s (storeSetSpent s h i)
  | [], _, _ => .nil
  | (k, td) :: rest, h, i => by
    unfold storeSetSpent
    by_cases hk : k == h
    · rw [if_pos hk]
      exact .cons ⟨rfl, rfl, rfl, rfl, rfl, spentLE_set_true td.spent i⟩ (storeLE_refl rest)
    · rw [if_neg hk]
      exact .cons ⟨rfl, txDataLE_refl td⟩ (storeSetSpent_le rest h i)

/-- The one successful exit of the input step marks exactly one output spent. -/
theorem txInStep_le {txHeight : Int} {txin : TxIn} {total : Int} {s : Store}
    {total' : Int} {s' : Store}
    (h : txInStep txHeight txin total s = .ok (total', s')) : StoreLE s s' := by
  unfold txInStep at h
  split at h
  · exact Except.noConfusion h
  · split at h
    · exact Except.noConfusion h
    · split at h
      · exact Except.noConfusion h
      · split at h
        · exact Except.noConfusion h
        · split at h
          · exact Except.noConfusion h
          · split at h
            · exact Except.noConfusion h
            · split at h
              · exact Except.noConfusion h
              · split at h
                · exact Except.noConfusion h
                · split at h
                  · exact Except.noConfusion h
                  · injection h with h1
                    injection h1 with h2 h3
                    subst h3
                    exact storeSetSpent_le s _ _

theorem processInputs_le (txHeight : Int) :
    ∀ (txs : List TxIn) (total : Int) (s : Store),
      StoreLE s (processInputs txHeight txs total s).1 := by
  intro txs
  induction txs with
  | nil => intro total s; exact storeLE_refl s
  | cons txin rest ih =>
    intro total s
    unfold processInputs
    rcases hstep : txInStep txHeight txin total s with e | ⟨t', s'⟩
    · exact storeLE_refl s
    · exact storeLE_trans (txInStep_le hstep) (ih t' s')

theorem checkTransactionInputs_le (p : Params) (tx : MsgTx) (txHeight : Int) (s : Store) :
    StoreLE s (checkTransactionInputs p tx txHeight s).1 := by
  unfold checkTransactionInputs
  split
  · exact storeLE_refl s
  · split
    · exact storeLE_refl s
    · rcases hpi : processInputs txHeight tx.txIn 0 s with ⟨s', r⟩
      have hle : StoreLE s s' := by
        have := processInputs_le txHeight tx.txIn 0 s
        rw [hpi] at this
        exact this
      cases r with
      | error e => simpa using hle
      | ok v =>
        simp only []
        split
        · exact hle
        · exact hle

theorem feePass_le (p : Params) (height : Int) :
    ∀ (txs : List MsgTx) (total : Int) (s : Store),
      StoreLE s (feePass p height txs total s).1 := by
  intro txs
  induction txs with
  | nil => intro total s; exact storeLE_refl s
  | cons tx rest ih =>
    intro total s
    unfold feePass
    rcases hci : checkTransactionInputs p tx height s with ⟨s', r⟩
    have hle : StoreLE s s' := by
      have := checkTransactionInputs_le p tx height s
      rw [hci] at this
      exact this
    cases r with
    | error e => simpa using hle
    | ok v =>
      simp only []
      split
      · exact hle
      · exact storeLE_trans hle (ih _ s')

/-! ### Gadgets for intra-block double spends (C2) -/

def c2PriorTx : MsgTx := ⟨1, [⟨⟨3, 5⟩, [], 0⟩], [⟨7, []⟩], 0⟩

def c2Store : Store := [(31, ⟨some c2PriorTx, 31, 1, [false], none⟩)]

def c2Tx1 : MsgTx := ⟨1, [⟨⟨31, 0⟩, [], 0⟩], [⟨0, []⟩], 0⟩

def c2Tx2 : MsgTx := ⟨1, [⟨⟨31, 0⟩, [], 0⟩], [⟨1, []⟩], 0⟩

def c2StoreAfter : Store := [(31, ⟨some c2PriorTx, 31, 1, [true], none⟩)]

/-- C2: within one pass `checkTransactionInputs` only ever sets spent bits
(`StoreLE` additionally records that no other field changes); the input step
rejects as a double-spend any input whose referenced output is already
marked spent; and for the concrete pair of transactions spending the same
outpoint in block order, the first succeeds and marks the bit while the
second is rejected as a double-spend. -/
theorem spec_c2_spent_monotone_double_spend :
    (∀ (p : Params) (tx : MsgTx) (txHeight : Int) (s : Store),
      StoreLE s (checkTransactionInputs p tx txHeight s).1) ∧
    (∀ (txHeight : Int) (txin : TxIn) (total : Int) (s : Store)
        (otd : TxData) (origin : MsgTx),
      storeLookup s txin.previousOutpoint.hash = some otd →
      otd.tx = some origin →
      ¬(isCoinBase origin = true ∧ txHeight - otd.blockHeight < coinbaseMaturity) →
      txin.previousOutpoint.index < otd.spent.length →
      otd.spent.getD txin.previousOutpoint.index false = true →
      txInStep txHeight txin total s = .error .doubleSpend) ∧
    checkTransactionInputs trivialParams c2Tx1 500 c2Store = (c2StoreAfter, .ok 7) ∧
    feePass trivialParams 500 [c2Tx1, c2Tx2] 0 c2Store =
      (c2StoreAfter, .error .doubleSpend) := by
  refine ⟨checkTransactionInputs_le, ?_, by decide, by decide⟩
  intro txHeight txin total s otd origin hlk htx hmat hidx hbit
  unfold txInStep
  simp only [hlk, htx]
  rw [if_neg hmat, if_neg (by omega), if_pos hbit]

/-- Witness for C2: the already-spent store rejects a further spend of the
same outpoint as a double-spend. -/
theorem spec_c2_spent_monotone_double_spend_witness :
    txInStep 500 ⟨⟨31, 0⟩, [], 0⟩ 0 c2StoreAfter = .error .doubleSpend :=
  spec_c2_spent_monotone_double_spend.2.1 500 ⟨⟨31, 0⟩, [], 0⟩ 0 c2StoreAfter
    ⟨some c2PriorTx, 31, 1, [true], none⟩ c2PriorTx rfl rfl (by decide) (by decide) rfl

/-! ### Gadgets for determinism and the mutation frame (C9) -/

def c9PriorTx : MsgTx := ⟨1, [⟨⟨2, 2⟩, [], 0⟩], [⟨5, []⟩], 0⟩

def c9Store : Store := [(61, ⟨some c9PriorTx, 61, 1, [false], none⟩)]

def c9Coinbase : MsgTx :=
  ⟨1, [⟨⟨zeroHash, maxUint32⟩, [0, 0], maxUint32⟩], [⟨0, []⟩], 0⟩

def c9Block : MsgBlock := ⟨⟨1, 0, 0, 0, 0, 0⟩, [c9Coinbase]⟩

def c9Params : Params :=
  { trivialParams with
      fetchTxList := fun _ _ => .ok [],
      fetchInputTransactions := fun _ _ => .ok c9Store }

/-- C9: connect-block validation is a pure function of its inputs (equal
collaborator/state triples give equal verdicts and equal final stores), and
the only mutation it performs on the fetched store is setting `spent` bits:
whenever the fetch produced `s0` and validation finishes with store `s'`,
every entry of `s'` agrees with `s0` on `tx`, `hash`, `blockHeight` and
`err`, and its `spent` bitmap is a pointwise-monotone update of the old. -/
theorem spec_c9_determinism_frame :
    (∀ (p q : Params) (node : BlockNode) (block : MsgBlock),
      p = q → checkConnectBlock p node block = checkConnectBlock q node block) ∧
    (∀ (p : Params) (node : BlockNode) (block : MsgBlock) (s0 s' : Store),
      p.fetchInputTransactions node block = .ok s0 →
      (checkConnectBlock p node block).2 = some s' →
      StoreLE s0 s') := by
  constructor
  · intro p q node block h
    rw [h]
  · intro p node block s0 s' hf
    unfold checkConnectBlock
    split
    · intro hsnd
      exact absurd hsnd (by simp)
    · split
      · intro hsnd
        exact absurd hsnd (by simp)
      · split
        next e heq =>
          rw [hf] at heq
          exact Except.noConfusion heq
        next ts heq =>
          rw [hf] at heq
          injection heq with hts
          subst hts
          split
          · intro hsnd
            simp only [Option.some.injEq] at hsnd
            subst hsnd
            exact storeLE_refl s0
          · rcases hfp : feePass p node.height block.transactions 0 s0 with ⟨sF, r⟩
            have hleF : StoreLE s0 sF := by
              have := feePass_le p node.height block.transactions 0 s0
              rw [hfp] at this
              exact this
            cases r with
            | error e =>
              dsimp only
              intro hsnd
              simp only [Option.some.injEq] at hsnd
              subst hsnd
              exact hleF
            | ok fees =>
              dsimp only
              split
              · intro hsnd
                simp only [Option.some.injEq] at hsnd
                subst hsnd
                exact hleF
              · split
                · intro hsnd
                  simp only [Option.some.injEq] at hsnd
                  subst hsnd
                  exact hleF
                · split
                  · split
                    · intro hsnd
                      simp only [Option.some.injEq] at hsnd
                      subst hsnd
                      exact hleF
                    · intro hsnd
                      simp only [Option.some.injEq] at hsnd
                      subst hsnd
                      exact hleF
                  · intro hsnd
                    simp only [Option.some.injEq] at hsnd
                    subst hsnd
                    exact hleF

/-- Witness for C9: the concrete coinbase-only block leaves the fetched
store untouched up to `StoreLE`. -/
theorem spec_c9_determinism_frame_witness :
    StoreLE c9Store c9Store :=
  spec_c9_determinism_frame.2 c9Params ⟨3, 50, 0⟩ c9Block c9Store c9Store rfl (by decide)

/-! ### Gadgets for the coinbase cap (C1) -/

def c1PriorTx : MsgTx := ⟨1, [⟨⟨3, 5⟩, [], 0⟩], [⟨100, []⟩], 0⟩

def c1Store : Store := [(41, ⟨some c1PriorTx, 41, 1, [false], none⟩)]

def c1StoreAfter : Store := [(41, ⟨some c1PriorTx, 41, 1, [true], none⟩)]

/-- Spends the 100-satoshi output entirely as fees. -/
def c1SpendTx : MsgTx := ⟨1, [⟨⟨41, 0⟩, [], 0⟩], [⟨0, []⟩], 0⟩

/-- Coinbase claiming exactly subsidy at height 210000 plus the 100 in fees. -/
def c1Coinbase : MsgTx :=
  ⟨1, [⟨⟨zeroHash, maxUint32⟩, [0, 1, 2, 3], maxUint32⟩], [⟨2500000100, []⟩], 0⟩

def c1Block : MsgBlock := ⟨⟨2, 0, 0, 0, 0, 0⟩, [c1Coinbase, c1SpendTx]⟩

def c1Params : Params :=
  { trivialParams with
      fetchTxList := fun _ _ => .ok [],
      fetchInputTransactions := fun _ _ => .ok c1Store }

/-- C1: on a non-genesis node, once the earlier connect stages have passed
(BIP30, input fetch, the sig-op pass, and the fee pass producing total fees
`totalFees`), `checkConnectBlock` succeeds exactly when the sum of the
coinbase outputs is at most `calcBlockSubsidy node.height + totalFees`:
paying exactly the bound or less is accepted, any excess is rejected. -/
theorem spec_c1_coinbase_cap (p : Params) (node : BlockNode) (block : MsgBlock)
    (tx0 : MsgTx) (rest : List MsgTx) (s0 sF : Store) (sigTotal totalFees : Int)
    (hg : node.hash ≠ genesisHash)
    (hb : (if isBIP0030Node node then Except.ok () else checkBIP0030 p node block) =
      .ok ())
    (hf : p.fetchInputTransactions node block = .ok s0)
    (hs : sigOpPass p (decide (bip16Activation < node.timestamp)) s0
      block.transactions 0 0 = .ok sigTotal)
    (hfee : feePass p node.height block.transactions 0 s0 = (sF, .ok totalFees))
    (htx : block.transactions = tx0 :: rest)
    (hscripts : (match p.latestCheckpoint with
                 | some cpHeight => if node.height ≤ cpHeight then false else !p.noVerify
                 | none => !p.noVerify : Bool) = false ∨
      p.blockScriptsCheck block sF = .ok ()) :
    (checkConnectBlock p node block).1 = .ok () ↔
      sumOutputValues tx0.txOut ≤ i64add (calcBlockSubsidy node.height) totalFees := by
  have hgb : (node.hash == genesisHash) = false := by
    simp only [beq_eq_false_iff_ne, ne_eq]
    exact hg
  unfold checkConnectBlock
  rw [hgb]
  simp only [Bool.false_eq_true, if_false]
  rw [hb]
  dsimp only
  rw [hf]
  dsimp only
  rw [hs]
  dsimp only
  rw [hfee]
  dsimp only
  rw [htx]
  dsimp only
  by_cases hcap : sumOutputValues tx0.txOut >
      i64add (calcBlockSubsidy node.height) totalFees
  · rw [if_pos hcap]
    constructor
    · intro hx
      exact absurd hx (by simp)
    · intro hx
      exact absurd hx (by omega)
  · rw [if_neg hcap]
    have hle : sumOutputValues tx0.txOut ≤
        i64add (calcBlockSubsidy node.height) totalFees := by omega
    cases hflag : (match p.latestCheckpoint with
                   | some cpHeight => if node.height ≤ cpHeight then false else !p.noVerify
                   | none => !p.noVerify : Bool) with
    | false =>
      simp only [Bool.false_eq_true, if_false]
      simpa using hle
    | true =>
      simp only [if_true]
      rcases hscripts with hrs | hok
      · rw [hflag] at hrs
        exact absurd hrs (by simp)
      · rw [hok]
        simpa using hle

/-- Witness for C1: at height 210000 with 100 satoshi of fees, a coinbase
paying exactly `25×10^8 + 100` is accepted. -/
theorem spec_c1_coinbase_cap_witness :
    (checkConnectBlock c1Params ⟨77, 210000, 0⟩ c1Block).1 = .ok () :=
  (spec_c1_coinbase_cap c1Params ⟨77, 210000, 0⟩ c1Block c1Coinbase [c1SpendTx]
    c1Store c1StoreAfter 0 100 (by decide) (by decide) rfl (by decide) (by decide) rfl
    (Or.inl rfl)).mpr (by decide)

/-! ### The output-total check of transaction sanity (C3) -/

/-- The spec-side reading of the total-output rule: some addition along the
signed running sum makes the new sum smaller than the previous one (the
wraparound signature) or pushes it above `maxSatoshi`. -/
def sumOverflowWitness : List Int → Int → Bool
  | [], _ => false
  | v :: rest, total =>
    (decide (i64add total v < total) || decide (i64add total v > maxSatoshi)) ||
      sumOverflowWitness rest (i64add total v)

theorem dupInputCheck_cases : ∀ (l : List TxIn) (seen : List OutPoint),
    dupInputCheck l seen = .ok () ∨ dupInputCheck l seen = .error .duplicateTxInputs := by
  intro l
  induction l with
  | nil => intro seen; exact .inl rfl
  | cons txin rest ih =>
    intro seen
    unfold dupInputCheck
    split
    · exact .inr rfl
    · exact ih _

theorem nullInputCheck_cases : ∀ l : List TxIn,
    nullInputCheck l = .ok () ∨ nullInputCheck l = .error .nullPrevOutpoint := by
  intro l
  induction l with
  | nil => exact .inl rfl
  | cons txin rest ih =>
    unfold nullInputCheck
    split
    · exact .inr rfl
    · exact ih

theorem maxSatoshi_eq : maxSatoshi = 2100000000000000 := by decide

theorem checkTxSanityOutputs_overflow :
    ∀ (outs : List TxOut) (total : Int), 0 ≤ total → total ≤ maxSatoshi →
    (∀ o ∈ outs, 0 ≤ o.value ∧ o.value ≤ maxSatoshi) →
    ((checkTxSanityOutputs outs total = .error .totalOutNegative ∨
      checkTxSanityOutputs outs total = .error .totalOutTooLarge) ↔
      sumOverflowWitness (outs.map TxOut.value) total = true) := by
  intro outs
  induction outs with
  | nil =>
    intro total h0 hmax hall
    simp [checkTxSanityOutputs, sumOverflowWitness]
  | cons o rest ih =>
    intro total h0 hmax hall
    have hv := hall o (List.mem_cons_self o rest)
    have hms := maxSatoshi_eq
    have hadd : i64add total o.value = total + o.value := by
      apply i64add_eq_of_bounds
      · omega
      · omega
    unfold checkTxSanityOutputs
    rw [if_neg (by omega), if_neg (by omega)]
    simp only [List.map_cons]
    unfold sumOverflowWitness
    rw [hadd]
    rw [if_neg (by omega)]
    by_cases hov : total + o.value > maxSatoshi
    · rw [if_pos hov]
      constructor
      · intro _
        have : decide (total + o.value > maxSatoshi) = true := by
          exact decide_eq_true hov
        simp [this]
      · intro _
        exact .inr rfl
    · rw [if_neg hov]
      have h1 : decide (total + o.value < total) = false := by
        simp
        omega
      have h2 : decide (total + o.value > maxSatoshi) = false := by
        simp
        omega
      rw [h1, h2]
      simp only [Bool.or_self, Bool.false_or]
      exact ih (total + o.value) (by omega) (by omega)
        (fun x hx => hall x (List.mem_cons_of_mem _ hx))

/-- C3: for a transaction with at least one input whose outputs all pass the
per-output range check individually, `checkTransactionSanity` fails the
total-output check (the running-sum negative/too-large rejections) exactly
when, along the signed 64-bit running sum of the output values, some
addition produces a sum smaller than the previous one or above
`maxSatoshi`. -/
theorem spec_c3_output_total_check (tx : MsgTx)
    (hin : tx.txIn ≠ [])
    (hrange : ∀ o ∈ tx.txOut, 0 ≤ o.value ∧ o.value ≤ maxSatoshi) :
    ((checkTransactionSanity tx = .error .totalOutNegative ∨
      checkTransactionSanity tx = .error .totalOutTooLarge) ↔
      sumOverflowWitness (tx.txOut.map TxOut.value) 0 = true) := by
  unfold checkTransactionSanity
  have hlen : ¬ tx.txIn.length = 0 := by
    simpa using hin
  rw [if_neg hlen]
  by_cases hout : tx.txOut.length = 0
  · rw [if_pos hout]
    have hnil : tx.txOut = [] := List.length_eq_zero.mp hout
    simp [hnil, sumOverflowWitness]
  · rw [if_neg hout]
    have hiff := checkTxSanityOutputs_overflow tx.txOut 0 (by omega)
      (by rw [maxSatoshi_eq]; omega) hrange
    rcases hc : checkTxSanityOutputs tx.txOut 0 with e | u
    · rw [hc] at hiff
      exact hiff
    · rw [hc] at hiff
      have hrhs : sumOverflowWitness (tx.txOut.map TxOut.value) 0 = false := by
        rcases hb : sumOverflowWitness (tx.txOut.map TxOut.value) 0 with _ | _
        · rfl
        · exact absurd (hiff.mpr hb) (by simp)
      rw [hrhs]
      cases u
      dsimp only
      rcases dupInputCheck_cases tx.txIn [] with hd | hd
      · rw [hd]
        dsimp only
        split
        · rcases htxin : tx.txIn with _ | ⟨txin, restIn⟩
          · exact absurd htxin hin
          · dsimp only
            split
            · simp
            · split
              · simp
              · simp
        · rcases nullInputCheck_cases tx.txIn with hn | hn
          · rw [hn]
            simp
          · rw [hn]
            simp
      · rw [hd]
        simp

/-- Witness for C3: three half-cap outputs overflow the cap at the second
addition, and the sanity check indeed rejects the total as too large. -/
theorem spec_c3_output_total_check_witness :
    checkTransactionSanity
      ⟨1, [⟨⟨3, 5⟩, [], 0⟩],
        [⟨1100000000000000, []⟩, ⟨1100000000000000, []⟩, ⟨1100000000000000, []⟩], 0⟩ =
      .error .totalOutTooLarge := by
  have h := spec_c3_output_total_check
    ⟨1, [⟨⟨3, 5⟩, [], 0⟩],
      [⟨1100000000000000, []⟩, ⟨1100000000000000, []⟩, ⟨1100000000000000, []⟩], 0⟩
    (by decide) (by decide)
  have hw := h.mpr (by decide)
  rcases hw with hx | hx
  · exact absurd hx (by decide)
  · exact hx

/-! ### Serialized block height and the validation pipeline (C4) -/

/-- Version-2 block whose coinbase script encodes 592137, not the height. -/
def c4Coinbase : MsgTx :=
  ⟨1, [⟨⟨zeroHash, maxUint32⟩, [9, 9, 9, 9, 9], maxUint32⟩], [⟨0, []⟩], 0⟩

def c4Block : MsgBlock := ⟨⟨2, 0, 0, 0, 0, 0⟩, [c4Coinbase]⟩

def c4Params : Params :=
  { trivialParams with
      compactToBig := fun _ => 1,
      powLimit := 1,
      txShas := fun txs => .ok (List.range txs.length),
      fetchTxList := fun _ _ => .ok [],
      fetchInputTransactions := fun _ _ => .ok [] }

def c4Node : BlockNode := ⟨555, 300000, 0⟩

/-- Counterexample to C4: a version-2 block whose coinbase signature script
does not serialize the node's height (`checkSerializedHeight` rejects it)
nevertheless passes both `checkBlockSanity` and `checkConnectBlock` — the
pipeline never invokes the serialized-height check. -/
theorem spec_c4_counterexample :
    2 ≤ c4Block.header.version ∧
    c4Block.transactions = [c4Coinbase] ∧
    checkSerializedHeight c4Coinbase c4Node.height = .error .badSerializedHeight ∧
    checkBlockSanity c4Params c4Block = .ok () ∧
    (checkConnectBlock c4Params c4Node c4Block).1 = .ok () :=
  ⟨by decide, rfl, by decide, by decide, by decide⟩

/-- C4 (amended): `checkSerializedHeight` accepts exactly when the coinbase
script is at least 4 bytes long and its bytes 1..3, zero-extended to a
little-endian u32, decode to the wanted height; but neither the block
sanity check nor the connect check ever invokes it, so a version ≥ 2 block
violating the serialized-height rule can pass the whole pipeline. -/
theorem spec_c4_serialized_height_amended :
    (∀ (tx : MsgTx) (txin : TxIn) (restIn : List TxIn) (wantHeight : Int),
      tx.txIn = txin :: restIn →
      (checkSerializedHeight tx wantHeight = .ok () ↔
        (4 ≤ txin.signatureScript.length ∧
          ((txin.signatureScript.getD 1 0 + txin.signatureScript.getD 2 0 * 256 +
            txin.signatureScript.getD 3 0 * 65536 : Nat) : Int) = wantHeight))) ∧
    (∃ (p : Params) (node : BlockNode) (block : MsgBlock) (cb : MsgTx)
        (restTx : List MsgTx),
      block.transactions = cb :: restTx ∧ 2 ≤ block.header.version ∧
      checkSerializedHeight cb node.height = .error .badSerializedHeight ∧
      checkBlockSanity p block = .ok () ∧
      (checkConnectBlock p node block).1 = .ok ()) := by
  constructor
  · intro tx txin restIn wantHeight htxin
    unfold checkSerializedHeight
    rw [htxin]
    dsimp only
    by_cases hlen : txin.signatureScript.length < 4
    · rw [if_pos hlen]
      constructor
      · intro h
        exact absurd h (by simp)
      · intro h
        omega
    · rw [if_neg hlen]
      by_cases heq : ((txin.signatureScript.getD 1 0 + txin.signatureScript.getD 2 0 * 256 +
          txin.signatureScript.getD 3 0 * 65536 : Nat) : Int) = wantHeight
      · rw [if_neg (by simpa using heq)]
        exact iff_of_true rfl ⟨by omega, heq⟩
      · rw [if_pos heq]
        exact iff_of_false (by simp) (fun h => heq h.2)
  · exact ⟨c4Params, c4Node, c4Block, c4Coinbase, [], rfl, by decide, by decide,
      by decide, by decide⟩

/-- Witness for the amended C4: a script whose bytes 1..3 little-endian
decode to 10000 passes `checkSerializedHeight` at height 10000. -/
theorem spec_c4_serialized_height_amended_witness :
    checkSerializedHeight
      ⟨1, [⟨⟨zeroHash, maxUint32⟩, [3, 16, 39, 0], maxUint32⟩], [⟨0, []⟩], 0⟩ 10000 =
      .ok () :=
  (spec_c4_serialized_height_amended.1
    ⟨1, [⟨⟨zeroHash, maxUint32⟩, [3, 16, 39, 0], maxUint32⟩], [⟨0, []⟩], 0⟩
    ⟨⟨zeroHash, maxUint32⟩, [3, 16, 39, 0], maxUint32⟩ [] 10000 rfl).mpr
    ⟨by decide, by decide⟩

end BtcChain
